import Mathlib

/-!
Shallow embedding of the commit-graph access layer of the Twiggy repository
(`src/git/types.rs`, `src/git/repository.rs`, `src/error.rs`).

The native version-control store (the `git2` library) is treated as a black
box, modelled by the `Store` structure: each `git2` call the embedded code
performs is a field of `Store` recording its outcome.  Stateful Rust methods
on `GitRepository` (`&mut self`) are embedded as functions returning the
result together with the post-state; on an error exit the post-state records
exactly the mutations the Rust code performed before returning `Err`.
-/

deriving instance DecidableEq for Except

namespace Twiggy

/-! ### Object identities (`git2::Oid`, 20 bytes = 40 hex nibbles) -/

/-- The lowercase hex character for a nibble value: `0`–`9` then `a`–`f`
(computed from the ASCII codes, 48 = `0` and 87 + 10 = 97 = `a`). -/
def toHexChar (d : Fin 16) : Char :=
  if d.val < 10 then Char.ofNat (48 + d.val) else Char.ofNat (87 + d.val)

/-- The nibble value of a hex character, accepting `0`–`9`, `a`–`f` and
`A`–`F` (ASCII codes 48–57, 97–102 and 65–70); any other character is
rejected. -/
def hexVal? (c : Char) : Option (Fin 16) :=
  let n := c.toNat
  if 48 ≤ n ∧ n ≤ 57 then some ⟨(n - 48) % 16, Nat.mod_lt _ (by omega)⟩
  else if 97 ≤ n ∧ n ≤ 102 then some ⟨(n - 87) % 16, Nat.mod_lt _ (by omega)⟩
  else if 65 ≤ n ∧ n ≤ 70 then some ⟨(n - 55) % 16, Nat.mod_lt _ (by omega)⟩
  else none

/-- Parse a list of hex characters into nibble values; fails on any non-hex
character (the behaviour of libgit2's hash parsing). -/
def hexListVal : List Char → Option (List (Fin 16))
  | [] => some []
  | c :: cs =>
    match hexVal? c with
    | none => none
    | some d => (hexListVal cs).map (d :: ·)

/-- A content-addressed object identity.  A well-formed `git2::Oid` always has
exactly 40 hex nibbles (160 bits); well-formedness is carried as a hypothesis
where a theorem needs it. -/
structure Oid where
  nibbles : List (Fin 16)
  deriving DecidableEq, Repr

/-- Canonical lowercase hex string form (`git2::Oid`'s `Display`). -/
def oidToStr (o : Oid) : String :=
  ⟨o.nibbles.map toHexChar⟩

/-- Error codes of the native library that the embedded code inspects
(`git2::ErrorCode`). -/
inductive GitCode where
  | unbornBranch
  | notFound
  | invalid
  | other
  deriving DecidableEq, Repr

/-- A native-library error (`git2::Error`): the inspected code plus a
message. -/
structure GitErr where
  code : GitCode
  msg : String
  deriving DecidableEq, Repr

/-- `git2::Oid::from_str`: accepts at most 40 hex characters (case
insensitive), zero-padding a short prefix; any other input is rejected. -/
def Oid.fromStr (s : String) : Except GitErr Oid :=
  if 40 < s.data.length then .error ⟨.invalid, "Unable to parse OID"⟩
  else
    match hexListVal s.data with
    | none => .error ⟨.invalid, "Unable to parse OID"⟩
    | some ds => .ok ⟨ds ++ List.replicate (40 - s.data.length) 0⟩

/-- Decidable well-formedness of a hash string: what `Oid.fromStr` accepts. -/
def validHashStr (s : String) : Bool :=
  s.data.length ≤ 40 && (hexListVal s.data).isSome

/-! ### Value types (`src/git/types.rs`) -/

/-- `CommitId(pub Oid)`. -/
structure CommitId where
  oid : Oid
  deriving DecidableEq, Repr

/-- `CommitId::as_str`: the canonical 40-character hex form. -/
def CommitId.asStr (c : CommitId) : String :=
  oidToStr c.oid

/-- Rust's `{:.7}` / `[..7]` truncation to the first 7 characters. -/
def truncate7 (s : String) : String :=
  ⟨s.data.take 7⟩

/-- `CommitId::short`: the first 7 hex characters of the canonical form. -/
def CommitId.short (c : CommitId) : String :=
  truncate7 (oidToStr c.oid)

/-- `Signature { name, email, time }`.  The timestamp is modelled as the raw
seconds value; the `chrono` conversion (which falls back to the current time
only on an out-of-range timestamp) is modelled as the identity. -/
structure Signature where
  name : String
  email : String
  time : Int
  deriving DecidableEq, Repr

/-- `chrono::Utc::now()`, reached only on the corrupt-signature fallback
paths; modelled as a fixed constant, no verified property depends on it. -/
def utcNow : Int := 0

/-- The materialized `Commit` entity. -/
structure Commit where
  id : CommitId
  author : Signature
  committer : Signature
  message : String
  summary : String
  parents : List CommitId
  tree_id : String
  deriving DecidableEq, Repr

/-! ### The native store model -/

/-- The raw data of one native commit object, as the `git2::Commit` accessors
expose it (`message()`, `summary()`, `parent_ids()`, `tree_id()`, and the
author/committer signature accessors, each of which may fail to produce a
UTF-8 value, hence the `Option`s). -/
structure NativeCommit where
  message : Option String
  summary : Option String
  parentIds : List Oid
  treeId : String
  authorName : Option String
  authorEmail : Option String
  authorTime : Int
  committerName : Option String
  committerEmail : Option String
  committerTime : Int
  deriving DecidableEq, Repr

/-- The resolved head reference (`repo.head()` success value): whether it is a
branch, its direct target, and its shorthand name. -/
structure HeadRef where
  isBranch : Bool
  target : Option Oid
  shorthand : Option String
  deriving DecidableEq, Repr

/-- An upstream tracking branch: its name (`upstream.name()`, which may be
unavailable) and its tip (`upstream.get().target()`). -/
structure UpstreamRef where
  name : Option String
  target : Option Oid
  deriving DecidableEq, Repr

/-- The native store (`git2::Repository`) as a black box: one field per
native call the embedded code performs, recording that call's outcome for the
(unchanging) store contents.  Revwalk outputs are recorded as the list of
`Oid` iteration results the walk yields. -/
structure Store where
  isEmptyResult : Except GitErr Bool
  headResult : Except GitErr HeadRef
  revwalkNew : Except GitErr Unit
  pushHeadResult : Except GitErr Unit
  setSortingResult : Except GitErr Unit
  headWalk : List (Except GitErr Oid)
  refs : List (String × Oid)
  upstreamOf : String → Option UpstreamRef
  graphAheadBehind : Oid → Oid → Except GitErr (Nat × Nat)
  objects : List (Oid × Except GitErr NativeCommit)
  pushResult : Oid → Except GitErr Unit
  hideResult : Oid → Except GitErr Unit
  walkFrom : Oid → List (Except GitErr Oid)
  rangeWalk : Oid → Oid → List (Except GitErr Oid)

def assocLookup {κ α : Type} [DecidableEq κ] : List (κ × α) → κ → Option α
  | [], _ => none
  | (k', v) :: rest, k => if k' = k then some v else assocLookup rest k

/-- `repo.find_commit(oid)`: look the object up in the store; a missing
object is a `NotFound` error, a corrupt object carries its own error. -/
def findCommit (s : Store) (oid : Oid) : Except GitErr NativeCommit :=
  match assocLookup s.objects oid with
  | some r => r
  | none => .error ⟨.notFound, "object not found"⟩

/-- `repo.refname_to_id(refname)`. -/
def refnameToId (s : Store) (refname : String) : Except GitErr Oid :=
  match assocLookup s.refs refname with
  | some o => .ok o
  | none => .error ⟨.notFound, "reference not found"⟩

/-- The parents of a commit as stored, for reachability reasoning; a missing
or corrupt object has no retrievable parents. -/
def parentsOf (s : Store) (o : Oid) : List Oid :=
  match assocLookup s.objects o with
  | some (.ok rec) => rec.parentIds
  | _ => []

/-- Fuelled ancestor reachability along parent links (`b` is reachable from
`a`, reflexively). -/
def reachFuel (s : Store) : Nat → Oid → Oid → Bool
  | 0, a, b => decide (a = b)
  | n + 1, a, b =>
    decide (a = b) || (parentsOf s a).any fun p => reachFuel s n p b

/-- Reachability with fuel the number of objects in the store, enough for any
acyclic history. -/
def reaches (s : Store) (a b : Oid) : Bool :=
  reachFuel s s.objects.length a b

/-! ### Error type (`src/error.rs`) -/

/-- The error kinds of `TwiggyError` that the commit-graph core produces.
Only the `Git` variant is reachable from the embedded operations. -/
inductive TwiggyError where
  | git (message : String) (source : GitErr)
  deriving DecidableEq, Repr

def exceptIsError {ε α : Type} : Except ε α → Bool
  | .error _ => true
  | .ok _ => false

def exceptIsOk {ε α : Type} : Except ε α → Bool
  | .error _ => false
  | .ok _ => true

/-! ### Repository handle state -/

abbrev Cache := List (CommitId × Commit)

/-- `HashMap::get`, on the insertion-ordered association list model. -/
def cacheGet : Cache → CommitId → Option Commit
  | [], _ => none
  | (k', v) :: rest, k => if k' = k then some v else cacheGet rest k

/-- `HashMap::insert`: replace the value at an existing key, otherwise add
the pair. -/
def cacheInsert : Cache → CommitId → Commit → Cache
  | [], k, v => [(k, v)]
  | (k', v') :: rest, k, v =>
    if k' = k then (k, v) :: rest else (k', v') :: cacheInsert rest k v

/-- The mutable state of `GitRepository` that the claims concern: the native
store, the ordered commit list, and the commit cache. -/
structure GitRepository where
  store : Store
  commits : List Commit
  commit_cache : Cache

/-! ### Operations (`src/git/repository.rs`) -/

/-- `GitRepository::parse_commit`. -/
def parseCommit (s : Store) (oid : Oid) : Except TwiggyError Commit :=
  match findCommit s oid with
  | .error e => .error (.git ("Failed to find commit " ++ oidToStr oid) e)
  | .ok rec =>
    let message := rec.message.getD ""
    let summary := rec.summary.getD ""
    let parents := rec.parentIds.map CommitId.mk
    let author : Signature :=
      match rec.authorName with
      | some n => ⟨n, rec.authorEmail.getD "", rec.authorTime⟩
      | none => ⟨"Unknown", "", utcNow⟩
    let committer : Signature :=
      match rec.committerName with
      | some n => ⟨n, rec.committerEmail.getD "", rec.committerTime⟩
      | none => ⟨"Unknown", "", utcNow⟩
    .ok ⟨⟨oid⟩, author, committer, message, summary, parents, rec.treeId⟩

/-- The commit-collection loop of `load_commits`: enumerate the revwalk,
break at the bound, propagate an OID-iteration error, skip (with a warning)
a commit that fails to parse, otherwise insert into the cache and append. -/
def loadCommitsLoop (s : Store) :
    List (Except GitErr Oid) → Nat → Nat → Cache → List Commit →
    Except TwiggyError Unit × Cache × List Commit
  | [], _, _, cache, acc => (.ok (), cache, acc)
  | o :: rest, idx, maxN, cache, acc =>
    if maxN ≤ idx then (.ok (), cache, acc)
    else
      match o with
      | .error e => (.error (.git "Failed to get commit OID" e), cache, acc)
      | .ok oid =>
        match parseCommit s oid with
        | .ok c =>
          loadCommitsLoop s rest (idx + 1) maxN (cacheInsert cache c.id c) (acc ++ [c])
        | .error _ => loadCommitsLoop s rest (idx + 1) maxN cache acc

/-- `GitRepository::load_commits`.  On an error exit the returned state keeps
the old ordered list (it is only assigned on success) but keeps any cache
insertions already made. -/
def load_commits (repo : GitRepository) (limit : Option Nat) :
    Except TwiggyError Unit × GitRepository :=
  match repo.store.isEmptyResult with
  | .error _ => (.ok (), repo)
  | .ok true => (.ok (), repo)
  | .ok false =>
    match repo.store.revwalkNew with
    | .error e => (.error (.git "Failed to create revwalk" e), repo)
    | .ok _ =>
      match repo.store.pushHeadResult with
      | .error e => (.error (.git "Failed to push HEAD" e), repo)
      | .ok _ =>
        match repo.store.setSortingResult with
        | .error e => (.error (.git "Failed to set sorting" e), repo)
        | .ok _ =>
          let maxN := limit.getD 1000
          let r := loadCommitsLoop repo.store repo.store.headWalk 0 maxN repo.commit_cache []
          match r.1 with
          | .ok _ => (.ok (), { repo with commit_cache := r.2.1, commits := r.2.2 })
          | .error e => (.error e, { repo with commit_cache := r.2.1 })

/-- `GitRepository::refresh_commits`: clear the ordered list, then reload. -/
def refresh_commits (repo : GitRepository) (limit : Option Nat) :
    Except TwiggyError Unit × GitRepository :=
  load_commits { repo with commits := [] } limit

/-- The commit-collection loop of `load_commits_lazy`: skip walk entries
before `start`, stop at `stop`, consult the cache per identity, and propagate
a parse failure as an error. -/
def lazyLoop (s : Store) :
    List (Except GitErr Oid) → Nat → Nat → Nat → Cache → List Commit →
    Except TwiggyError (List Commit) × Cache
  | [], _, _, _, cache, acc => (.ok acc, cache)
  | o :: rest, idx, start, stop, cache, acc =>
    if idx < start then lazyLoop s rest (idx + 1) start stop cache acc
    else if stop ≤ idx then (.ok acc, cache)
    else
      match o with
      | .error e => (.error (.git "Failed to get commit OID in lazy loading" e), cache)
      | .ok oid =>
        match cacheGet cache ⟨oid⟩ with
        | some c => lazyLoop s rest (idx + 1) start stop cache (acc ++ [c])
        | none =>
          match parseCommit s oid with
          | .error e => (.error e, cache)
          | .ok c => lazyLoop s rest (idx + 1) start stop (cacheInsert cache c.id c) (acc ++ [c])

/-- `GitRepository::load_commits_lazy`. -/
def load_commits_lazy (repo : GitRepository) (start count : Nat) :
    Except TwiggyError (List Commit) × GitRepository :=
  if start < repo.commits.length then
    let endIdx := min (start + count) repo.commits.length
    (.ok ((repo.commits.drop start).take (endIdx - start)), repo)
  else
    match repo.store.revwalkNew with
    | .error e => (.error (.git "Failed to create revwalk for lazy loading" e), repo)
    | .ok _ =>
      match repo.store.pushHeadResult with
      | .error e => (.error (.git "Failed to push HEAD for lazy loading" e), repo)
      | .ok _ =>
        match repo.store.setSortingResult with
        | .error e => (.error (.git "Failed to set sorting for lazy loading" e), repo)
        | .ok _ =>
          let r := lazyLoop repo.store repo.store.headWalk 0 start (start + count) repo.commit_cache []
          (r.1, { repo with commit_cache := r.2 })

/-- The shared commit-collection loop of `load_commits_for_branch` and
`load_commits_range` (the Rust code duplicates this loop verbatim in the two
functions, differing only in the OID-error message): enumerate the walk,
break at the bound, consult the cache per identity, parse and insert on a
miss, and propagate a parse failure as an error. -/
def walkLoopCached (s : Store) (oidErrMsg : String) :
    List (Except GitErr Oid) → Nat → Nat → Cache → List Commit →
    Except TwiggyError (List Commit) × Cache
  | [], _, _, cache, acc => (.ok acc, cache)
  | o :: rest, idx, maxN, cache, acc =>
    if maxN ≤ idx then (.ok acc, cache)
    else
      match o with
      | .error e => (.error (.git oidErrMsg e), cache)
      | .ok oid =>
        match cacheGet cache ⟨oid⟩ with
        | some c => walkLoopCached s oidErrMsg rest (idx + 1) maxN cache (acc ++ [c])
        | none =>
          match parseCommit s oid with
          | .error e => (.error e, cache)
          | .ok c => walkLoopCached s oidErrMsg rest (idx + 1) maxN (cacheInsert cache c.id c) (acc ++ [c])

/-- `GitRepository::load_commits_for_branch`. -/
def load_commits_for_branch (repo : GitRepository) (branchName : String) (limit : Option Nat) :
    Except TwiggyError (List Commit) × GitRepository :=
  match repo.store.revwalkNew with
  | .error e => (.error (.git "Failed to create revwalk for branch" e), repo)
  | .ok _ =>
    match refnameToId repo.store ("refs/heads/" ++ branchName) with
    | .error e => (.error (.git ("Failed to find branch: " ++ branchName) e), repo)
    | .ok tip =>
      match repo.store.pushResult tip with
      | .error e =>
        (.error (.git ("Failed to push branch " ++ branchName ++ " to revwalk") e), repo)
      | .ok _ =>
        match repo.store.setSortingResult with
        | .error e => (.error (.git "Failed to set sorting for branch commits" e), repo)
        | .ok _ =>
          let r := walkLoopCached repo.store "Failed to get commit OID for branch"
            (repo.store.walkFrom tip) 0 (limit.getD 1000) repo.commit_cache []
          (r.1, { repo with commit_cache := r.2 })

/-- `GitRepository::load_commits_range`. -/
def load_commits_range (repo : GitRepository) (fromS toS : String) (limit : Option Nat) :
    Except TwiggyError (List Commit) × GitRepository :=
  match Oid.fromStr fromS with
  | .error e => (.error (.git ("Invalid from commit hash: " ++ fromS) e), repo)
  | .ok fromOid =>
    match Oid.fromStr toS with
    | .error e => (.error (.git ("Invalid to commit hash: " ++ toS) e), repo)
    | .ok toOid =>
      match repo.store.revwalkNew with
      | .error e => (.error (.git "Failed to create revwalk for range" e), repo)
      | .ok _ =>
        match repo.store.pushResult toOid with
        | .error e =>
          (.error (.git ("Failed to push to commit " ++ toS ++ " to revwalk") e), repo)
        | .ok _ =>
          match repo.store.hideResult fromOid with
          | .error e =>
            (.error (.git ("Failed to hide from commit " ++ fromS ++ " in revwalk") e), repo)
          | .ok _ =>
            match repo.store.setSortingResult with
            | .error e => (.error (.git "Failed to set sorting for range commits" e), repo)
            | .ok _ =>
              let r := walkLoopCached repo.store "Failed to get commit OID for range"
                (repo.store.rangeWalk toOid fromOid) 0 (limit.getD 1000) repo.commit_cache []
              (r.1, { repo with commit_cache := r.2 })

/-- `GitRepository::is_empty`. -/
def is_empty (repo : GitRepository) : Except TwiggyError Bool :=
  match repo.store.isEmptyResult with
  | .ok b => .ok b
  | .error e => .error (.git "Failed to check if repository is empty" e)

/-- `GitRepository::commit_count` (the number of loaded commits). -/
def commit_count (repo : GitRepository) : Nat :=
  repo.commits.length

/-- `GitRepository::cache_size`. -/
def cache_size (repo : GitRepository) : Nat :=
  repo.commit_cache.length

/-- `GitRepository::get_commits`. -/
def get_commits (repo : GitRepository) : List Commit :=
  repo.commits

/-- `GitRepository::get_commit_by_id`. -/
def get_commit_by_id (repo : GitRepository) (id : CommitId) : Option Commit :=
  cacheGet repo.commit_cache id

/-- `GitRepository::find_commit_by_hash`. -/
def find_commit_by_hash (repo : GitRepository) (hash : String) :
    Except TwiggyError (Option Commit) :=
  match Oid.fromStr hash with
  | .error e => .error (.git ("Invalid commit hash: " ++ hash) e)
  | .ok oid =>
    match cacheGet repo.commit_cache ⟨oid⟩ with
    | some c => .ok (some c)
    | none =>
      match findCommit repo.store oid with
      | .ok _ =>
        match parseCommit repo.store oid with
        | .ok c => .ok (some c)
        | .error e => .error e
      | .error e =>
        if e.code = .notFound then .ok none
        else .error (.git ("Failed to find commit " ++ hash) e)

/-! ### Branch resolution (`get_branch_info`, `calculate_ahead_behind`) -/

inductive BranchState where
  | normal
  | detachedHead
  | unborn
  deriving DecidableEq, Repr

structure BranchInfo where
  name : String
  upstream : Option String
  ahead : Nat
  behind : Nat
  state : BranchState
  deriving DecidableEq, Repr

/-- `GitRepository::calculate_ahead_behind`.  The branch tip is passed in
directly (in the source it is re-read from the branch reference; a symbolic
branch reference without a direct target is not modelled). -/
def calculate_ahead_behind (repo : GitRepository) (branchName : String) (localOid : Oid) :
    Except TwiggyError (Nat × Nat) :=
  match repo.store.upstreamOf branchName with
  | some u =>
    match u.target with
    | some uoid =>
      match repo.store.graphAheadBehind localOid uoid with
      | .ok p => .ok p
      | .error _ => .ok (0, 0)
    | none => .ok (0, 0)
  | none => .ok (0, 0)

/-- `GitRepository::get_branch_info`. -/
def get_branch_info (repo : GitRepository) : Except TwiggyError BranchInfo :=
  match repo.store.headResult with
  | .ok head =>
    if head.isBranch then
      match head.shorthand with
      | none => .error (.git "Invalid branch name" ⟨.other, "Invalid branch name"⟩)
      | some branchName =>
        match assocLookup repo.store.refs ("refs/heads/" ++ branchName) with
        | none => .error (.git "Failed to find branch" ⟨.notFound, "branch not found"⟩)
        | some branchOid =>
          let upstream :=
            match repo.store.upstreamOf branchName with
            | some u => u.name
            | none => none
          match calculate_ahead_behind repo branchName branchOid with
          | .error e => .error e
          | .ok (ahead, behind) => .ok ⟨branchName, upstream, ahead, behind, .normal⟩
    else
      match head.target with
      | some oid =>
        .ok ⟨"HEAD detached at " ++ truncate7 (oidToStr oid), none, 0, 0, .detachedHead⟩
      | none => .ok ⟨"HEAD (detached)", none, 0, 0, .detachedHead⟩
  | .error e =>
    if e.code = .unbornBranch then .ok ⟨"main", none, 0, 0, .unborn⟩
    else .error (.git "Failed to get HEAD" e)

/-! ### Helper lemmas: hex round trip -/

theorem hexVal_toHexChar : ∀ d : Fin 16, hexVal? (toHexChar d) = some d := by decide

theorem hexListVal_map_toHexChar (l : List (Fin 16)) :
    hexListVal (l.map toHexChar) = some l := by
  induction l with
  | nil => rfl
  | cons d rest ih =>
    simp only [List.map_cons, hexListVal, hexVal_toHexChar, ih]
    rfl

theorem oid_fromStr_roundtrip (o : Oid) (h : o.nibbles.length = 40) :
    Oid.fromStr (oidToStr o) = .ok o := by
  have hd : (oidToStr o).data = o.nibbles.map toHexChar := rfl
  unfold Oid.fromStr
  rw [hd, List.length_map, h]
  simp only [Nat.lt_irrefl, if_false, hexListVal_map_toHexChar, Nat.sub_self,
    List.replicate_zero, List.append_nil]

theorem oid_fromStr_malformed (s : String) (hs : validHashStr s = false) :
    ∃ g, Oid.fromStr s = .error g := by
  unfold Oid.fromStr
  by_cases hlen : 40 < s.data.length
  · rw [if_pos hlen]; exact ⟨_, rfl⟩
  · rw [if_neg hlen]
    rcases hb : hexListVal s.data with _ | v
    · exact ⟨_, rfl⟩
    · exfalso
      unfold validHashStr at hs
      have h2 : decide (s.data.length ≤ 40) = true := decide_eq_true (Nat.not_lt.mp hlen)
      rw [hb, h2] at hs
      simp at hs

/-! ### Concrete fixtures used by witnesses and counterexamples -/

def oidN (d : Fin 16) : Oid := ⟨List.replicate 40 d⟩

def natCommit (ps : List Oid) : NativeCommit :=
  { message := some "message", summary := some "summary", parentIds := ps, treeId := "tree"
    authorName := some "Author", authorEmail := some "author@example.com", authorTime := 10
    committerName := some "Author", committerEmail := some "author@example.com"
    committerTime := 10 }

def baseStore : Store :=
  { isEmptyResult := .ok false
    headResult := .error ⟨.unbornBranch, "unborn"⟩
    revwalkNew := .ok ()
    pushHeadResult := .ok ()
    setSortingResult := .ok ()
    headWalk := []
    refs := []
    upstreamOf := fun _ => none
    graphAheadBehind := fun _ _ => .ok (0, 0)
    objects := []
    pushResult := fun _ => .ok ()
    hideResult := fun _ => .ok ()
    walkFrom := fun _ => []
    rangeWalk := fun _ _ => [] }

def baseRepo : GitRepository := { store := baseStore, commits := [], commit_cache := [] }

/-! ### Characterization of the `load_commits` loop -/

/-- The commits a walk over `l` materializes: parse each identity, dropping
the ones that fail to parse. -/
def parsedOf (s : Store) (l : List Oid) : List Commit :=
  l.filterMap fun o => (parseCommit s o).toOption

/-- Insert a list of commits into a cache, keyed by their identities. -/
def foldInsert (cache : Cache) (l : List Commit) : Cache :=
  l.foldl (fun m c => cacheInsert m c.id c) cache

theorem parsedOf_cons_ok (s : Store) (o : Oid) (l : List Oid) (c : Commit)
    (hp : parseCommit s o = .ok c) : parsedOf s (o :: l) = c :: parsedOf s l := by
  simp [parsedOf, List.filterMap_cons, hp, Except.toOption]

theorem parsedOf_cons_err (s : Store) (o : Oid) (l : List Oid) (e : TwiggyError)
    (hp : parseCommit s o = .error e) : parsedOf s (o :: l) = parsedOf s l := by
  simp [parsedOf, List.filterMap_cons, hp, Except.toOption]

theorem foldInsert_cons (cache : Cache) (c : Commit) (l : List Commit) :
    foldInsert cache (c :: l) = foldInsert (cacheInsert cache c.id c) l := rfl

theorem loadCommitsLoop_spec (s : Store) (oids : List Oid) :
    ∀ (idx maxN : Nat) (cache : Cache) (acc : List Commit),
      loadCommitsLoop s (oids.map .ok) idx maxN cache acc =
        (.ok (), foldInsert cache (parsedOf s (oids.take (maxN - idx))),
          acc ++ parsedOf s (oids.take (maxN - idx))) := by
  induction oids with
  | nil =>
    intro idx maxN cache acc
    simp [loadCommitsLoop, parsedOf, foldInsert]
  | cons o rest ih =>
    intro idx maxN cache acc
    by_cases hle : maxN ≤ idx
    · have h0 : maxN - idx = 0 := Nat.sub_eq_zero_of_le hle
      rw [List.map_cons, h0]
      simp [loadCommitsLoop, hle, parsedOf, foldInsert]
    · have hstep : maxN - idx = (maxN - (idx + 1)) + 1 := by omega
      rw [List.map_cons, hstep]
      simp only [loadCommitsLoop, if_neg hle]
      cases hp : parseCommit s o with
      | ok c =>
        dsimp only
        rw [ih (idx + 1) maxN (cacheInsert cache c.id c) (acc ++ [c]),
          List.take_succ_cons, parsedOf_cons_ok s o _ c hp, foldInsert_cons]
        simp
      | error e =>
        dsimp only
        rw [ih (idx + 1) maxN cache acc,
          List.take_succ_cons, parsedOf_cons_err s o _ e hp]

/-- Closed form of a successful `load_commits`: the ordered list becomes the
parseable commits of the bounded walk (in walk order), each of which is also
inserted into the cache. -/
theorem load_commits_spec (repo : GitRepository) (limit : Option Nat) (oids : List Oid)
    (hIE : repo.store.isEmptyResult = .ok false)
    (hRW : repo.store.revwalkNew = .ok ())
    (hPH : repo.store.pushHeadResult = .ok ())
    (hSS : repo.store.setSortingResult = .ok ())
    (hW : repo.store.headWalk = oids.map .ok) :
    load_commits repo limit =
      (.ok (), { repo with
        commit_cache :=
          foldInsert repo.commit_cache (parsedOf repo.store (oids.take (limit.getD 1000)))
        commits := parsedOf repo.store (oids.take (limit.getD 1000)) }) := by
  unfold load_commits
  rw [hIE, hRW, hPH, hSS, hW]
  simp only [loadCommitsLoop_spec repo.store oids 0 (limit.getD 1000) repo.commit_cache [],
    Nat.sub_zero, List.nil_append]

/-! ### Cache association-list lemmas -/

theorem cacheGet_insert (m : Cache) (k : CommitId) (v : Commit) (k' : CommitId) :
    cacheGet (cacheInsert m k v) k' = if k = k' then some v else cacheGet m k' := by
  induction m with
  | nil => rfl
  | cons p rest ih =>
    obtain ⟨a, b⟩ := p
    by_cases hak : a = k
    · subst hak
      simp only [cacheInsert, if_pos rfl, cacheGet]
      by_cases h' : a = k'
      · rw [if_pos h', if_pos h']
      · rw [if_neg h', if_neg h', if_neg h']
    · simp only [cacheInsert, if_neg hak, cacheGet, ih]
      by_cases h' : a = k'
      · have hkk : ¬k = k' := fun h => hak (h'.trans h.symm)
        rw [if_pos h', if_neg hkk, if_pos h']
      · rw [if_neg h', if_neg h']

theorem cacheInsert_length_of_mem (m : Cache) (k : CommitId) (v : Commit)
    (h : (cacheGet m k).isSome = true) :
    (cacheInsert m k v).length = m.length := by
  induction m with
  | nil => simp [cacheGet] at h
  | cons p rest ih =>
    obtain ⟨a, b⟩ := p
    by_cases hak : a = k
    · simp [cacheInsert, hak]
    · simp only [cacheGet, if_neg hak] at h
      simp [cacheInsert, hak, ih h]

theorem cacheGet_foldInsert_of_mem (l : List Commit) :
    ∀ (m : Cache) (k : CommitId), (cacheGet m k).isSome = true →
      (cacheGet (foldInsert m l) k).isSome = true := by
  induction l with
  | nil => intro m k h; exact h
  | cons c rest ih =>
    intro m k h
    rw [foldInsert_cons]
    refine ih _ k ?_
    rw [cacheGet_insert]
    by_cases hk : c.id = k
    · rw [if_pos hk]; rfl
    · rw [if_neg hk]; exact h

theorem cacheGet_foldInsert_self (l : List Commit) :
    ∀ (m : Cache) (c : Commit), c ∈ l → (cacheGet (foldInsert m l) c.id).isSome = true := by
  induction l with
  | nil => intro m c h; cases h
  | cons c' rest ih =>
    intro m c h
    rw [foldInsert_cons]
    rcases List.mem_cons.mp h with h1 | h2
    · subst h1
      refine cacheGet_foldInsert_of_mem rest _ c.id ?_
      rw [cacheGet_insert, if_pos rfl]; rfl
    · exact ih _ c h2

theorem foldInsert_length_of_mem (l : List Commit) :
    ∀ (m : Cache), (∀ c ∈ l, (cacheGet m c.id).isSome = true) →
      (foldInsert m l).length = m.length := by
  induction l with
  | nil => intro m _; rfl
  | cons c rest ih =>
    intro m h
    rw [foldInsert_cons]
    have hc : (cacheGet m c.id).isSome = true := h c (List.mem_cons_self c rest)
    have hlen := cacheInsert_length_of_mem m c.id c hc
    rw [ih (cacheInsert m c.id c) ?_, hlen]
    intro c' hc'
    rw [cacheGet_insert]
    by_cases hk : c.id = c'.id
    · rw [if_pos hk]; rfl
    · rw [if_neg hk]; exact h c' (List.mem_cons_of_mem c hc')

/-! ### C10 -/

/-- C10: if the emptiness check at the start of `load_commits` itself fails,
the repository is treated as empty: `load_commits` returns success and leaves
the state (ordered list and cache) completely unchanged. -/
theorem c10_unreadable_emptiness_is_noop (repo : GitRepository) (g : GitErr)
    (limit : Option Nat) (h : repo.store.isEmptyResult = .error g) :
    load_commits repo limit = (.ok (), repo) := by
  unfold load_commits
  rw [h]

def c10Repo : GitRepository :=
  { store := { baseStore with isEmptyResult := .error ⟨.other, "io"⟩ }
    commits := [], commit_cache := [] }

theorem c10_witness :
    c10Repo.store.isEmptyResult = .error ⟨.other, "io"⟩ ∧
    load_commits c10Repo none = (.ok (), c10Repo) :=
  ⟨rfl, c10_unreadable_emptiness_is_noop c10Repo ⟨.other, "io"⟩ none rfl⟩

/-! ### C6 -/

/-- C6: a freshly initialized store with zero commits: `is_empty` is `true`,
`commit_count` is `0`, `load_commits` with any bound succeeds without
touching the state (so no revwalk error can surface), and branch resolution
yields the `Unborn` state named "main" with no upstream and zero
ahead/behind. -/
theorem c6_empty_store_safety (repo : GitRepository) (limit : Option Nat) (m : String)
    (hEmpty : repo.store.isEmptyResult = .ok true)
    (hHead : repo.store.headResult = .error ⟨.unbornBranch, m⟩)
    (hFresh : repo.commits = []) :
    is_empty repo = .ok true ∧
    commit_count repo = 0 ∧
    load_commits repo limit = (.ok (), repo) ∧
    get_branch_info repo = .ok ⟨"main", none, 0, 0, .unborn⟩ := by
  refine ⟨?_, ?_, ?_, ?_⟩
  · unfold is_empty; rw [hEmpty]
  · unfold commit_count; rw [hFresh]; rfl
  · unfold load_commits; rw [hEmpty]
  · unfold get_branch_info; rw [hHead]; rfl

def c6Store : Store :=
  { baseStore with
    isEmptyResult := .ok true
    headResult := .error ⟨.unbornBranch, "reference not found"⟩ }

def c6Repo : GitRepository :=
  { store := c6Store, commits := [], commit_cache := [] }

theorem c6_witness :
    c6Repo.store.isEmptyResult = .ok true ∧
    c6Repo.store.headResult = .error ⟨.unbornBranch, "reference not found"⟩ ∧
    c6Repo.commits = [] ∧
    (is_empty c6Repo = .ok true ∧
     commit_count c6Repo = 0 ∧
     load_commits c6Repo (some 5) = (.ok (), c6Repo) ∧
     get_branch_info c6Repo = .ok ⟨"main", none, 0, 0, .unborn⟩) :=
  ⟨rfl, rfl, rfl, c6_empty_store_safety c6Repo (some 5) "reference not found" rfl rfl rfl⟩

/-! ### C9 -/

/-- C9: with a detached head pointing at a commit, branch resolution yields
the `DetachedHead` state whose name is "HEAD detached at " followed by
exactly the first 7 hex characters of the commit identity's canonical form,
with no upstream and zero ahead/behind. -/
theorem c9_detached_head (repo : GitRepository) (o : Oid) (sh : Option String)
    (hHead : repo.store.headResult = .ok ⟨false, some o, sh⟩)
    (h40 : o.nibbles.length = 40) :
    get_branch_info repo =
      .ok ⟨"HEAD detached at " ++ truncate7 (oidToStr o), none, 0, 0, .detachedHead⟩ ∧
    (truncate7 (oidToStr o)).data = (oidToStr o).data.take 7 ∧
    (truncate7 (oidToStr o)).data.length = 7 := by
  refine ⟨?_, rfl, ?_⟩
  · unfold get_branch_info; rw [hHead]; rfl
  · have hd : (oidToStr o).data = o.nibbles.map toHexChar := rfl
    have : (truncate7 (oidToStr o)).data = ((oidToStr o).data).take 7 := rfl
    rw [this, List.length_take, hd, List.length_map, h40]
    omega

def c9Repo : GitRepository :=
  { store := { baseStore with headResult := .ok ⟨false, some (oidN 13), none⟩ }
    commits := [], commit_cache := [] }

theorem c9_witness :
    c9Repo.store.headResult = .ok ⟨false, some (oidN 13), none⟩ ∧
    (oidN 13).nibbles.length = 40 ∧
    (get_branch_info c9Repo =
      .ok ⟨"HEAD detached at " ++ truncate7 (oidToStr (oidN 13)), none, 0, 0, .detachedHead⟩ ∧
     (truncate7 (oidToStr (oidN 13))).data = (oidToStr (oidN 13)).data.take 7 ∧
     (truncate7 (oidToStr (oidN 13))).data.length = 7) :=
  ⟨rfl, by decide, c9_detached_head c9Repo (oidN 13) none rfl (by decide)⟩

/-! ### C4 -/

/-- C4: for an unchanged store, running the same bounded load twice yields
identical ordered commit lists, and the cache size after the second load
equals the cache size after the first load. -/
theorem c4_idempotent_caching (repo : GitRepository) (limit : Option Nat) (oids : List Oid)
    (hIE : repo.store.isEmptyResult = .ok false)
    (hRW : repo.store.revwalkNew = .ok ())
    (hPH : repo.store.pushHeadResult = .ok ())
    (hSS : repo.store.setSortingResult = .ok ())
    (hW : repo.store.headWalk = oids.map .ok) :
    (load_commits repo limit).1 = .ok () ∧
    (load_commits (load_commits repo limit).2 limit).1 = .ok () ∧
    (load_commits (load_commits repo limit).2 limit).2.commits =
      (load_commits repo limit).2.commits ∧
    cache_size (load_commits (load_commits repo limit).2 limit).2 =
      cache_size (load_commits repo limit).2 := by
  have h1 := load_commits_spec repo limit oids hIE hRW hPH hSS hW
  have hstore1 : (load_commits repo limit).2.store = repo.store := by rw [h1]
  have h2 := load_commits_spec (load_commits repo limit).2 limit oids
    (by rw [hstore1]; exact hIE) (by rw [hstore1]; exact hRW) (by rw [hstore1]; exact hPH)
    (by rw [hstore1]; exact hSS) (by rw [hstore1]; exact hW)
  rw [hstore1] at h2
  have hcache1 : (load_commits repo limit).2.commit_cache =
      foldInsert repo.commit_cache (parsedOf repo.store (oids.take (limit.getD 1000))) := by
    rw [h1]
  have hcommits1 : (load_commits repo limit).2.commits =
      parsedOf repo.store (oids.take (limit.getD 1000)) := by rw [h1]
  refine ⟨by rw [h1], by rw [h2], ?_, ?_⟩
  · have hcommits2 : (load_commits (load_commits repo limit).2 limit).2.commits =
        parsedOf repo.store (oids.take (limit.getD 1000)) := by rw [h2]
    rw [hcommits2, hcommits1]
  · have hcache2 : (load_commits (load_commits repo limit).2 limit).2.commit_cache =
        foldInsert (load_commits repo limit).2.commit_cache
          (parsedOf repo.store (oids.take (limit.getD 1000))) := by rw [h2]
    unfold cache_size
    rw [hcache2, hcache1]
    exact foldInsert_length_of_mem _ _
      (fun c hc => cacheGet_foldInsert_self _ repo.commit_cache c hc)

def c4Store : Store :=
  { baseStore with
    headWalk := [.ok (oidN 1), .ok (oidN 2)]
    objects := [(oidN 1, .ok (natCommit [oidN 2])), (oidN 2, .ok (natCommit []))] }

def c4Repo : GitRepository := { store := c4Store, commits := [], commit_cache := [] }

theorem c4_witness :
    c4Repo.store.isEmptyResult = .ok false ∧
    c4Repo.store.revwalkNew = .ok () ∧
    c4Repo.store.pushHeadResult = .ok () ∧
    c4Repo.store.setSortingResult = .ok () ∧
    c4Repo.store.headWalk = [oidN 1, oidN 2].map .ok ∧
    ((load_commits c4Repo none).1 = .ok () ∧
     (load_commits (load_commits c4Repo none).2 none).1 = .ok () ∧
     (load_commits (load_commits c4Repo none).2 none).2.commits =
       (load_commits c4Repo none).2.commits ∧
     cache_size (load_commits (load_commits c4Repo none).2 none).2 =
       cache_size (load_commits c4Repo none).2) :=
  ⟨rfl, rfl, rfl, rfl, rfl,
   c4_idempotent_caching c4Repo none [oidN 1, oidN 2] rfl rfl rfl rfl rfl⟩

/-! ### C1 -/

theorem exceptIsError_on_ok {ε α : Type} (a : α) :
    exceptIsError (Except.ok a : Except ε α) = false := rfl

theorem exceptIsError_on_err {ε α : Type} (e : ε) :
    exceptIsError (Except.error e : Except ε α) = true := rfl

theorem parsedOf_length_add_countP (s : Store) (l : List Oid) :
    (parsedOf s l).length + (l.countP fun o => exceptIsError (parseCommit s o)) = l.length := by
  induction l with
  | nil => rfl
  | cons o rest ih =>
    rw [List.countP_cons]
    cases hp : parseCommit s o with
    | ok c =>
      rw [parsedOf_cons_ok s o rest c hp]
      simp only [exceptIsError_on_ok, List.length_cons, Bool.false_eq_true, if_false]
      omega
    | error e =>
      rw [parsedOf_cons_err s o rest e hp]
      simp only [exceptIsError_on_err, List.length_cons, if_true]
      omega

/-- C1 (amended): only the full/bounded load skips an unparseable commit.
With exactly one unparseable commit among the N+1 visited, `load_commits`
succeeds and its ordered list is exactly the N parseable commits in
traversal order.  (The branch-scoped, range and lazy loads instead propagate
the parse failure as an error; see the counterexample.) -/
theorem c1_corrupt_skip_full_load (repo : GitRepository) (limit : Option Nat) (oids : List Oid)
    (hIE : repo.store.isEmptyResult = .ok false)
    (hRW : repo.store.revwalkNew = .ok ())
    (hPH : repo.store.pushHeadResult = .ok ())
    (hSS : repo.store.setSortingResult = .ok ())
    (hW : repo.store.headWalk = oids.map .ok)
    (hOne : ((oids.take (limit.getD 1000)).countP fun o =>
        exceptIsError (parseCommit repo.store o)) = 1) :
    (load_commits repo limit).1 = .ok () ∧
    (load_commits repo limit).2.commits = parsedOf repo.store (oids.take (limit.getD 1000)) ∧
    (load_commits repo limit).2.commits.length + 1 = (oids.take (limit.getD 1000)).length := by
  have h1 := load_commits_spec repo limit oids hIE hRW hPH hSS hW
  have hc : (load_commits repo limit).2.commits =
      parsedOf repo.store (oids.take (limit.getD 1000)) := by rw [h1]
  refine ⟨by rw [h1], hc, ?_⟩
  have hlen := parsedOf_length_add_countP repo.store (oids.take (limit.getD 1000))
  rw [hc]
  omega

def c1wStore : Store :=
  { baseStore with
    headWalk := [.ok (oidN 1), .ok (oidN 2)]
    objects := [(oidN 1, .ok (natCommit [oidN 2])), (oidN 2, .error ⟨.other, "corrupt"⟩)] }

def c1wRepo : GitRepository := { store := c1wStore, commits := [], commit_cache := [] }

theorem c1_witness :
    c1wRepo.store.isEmptyResult = .ok false ∧
    c1wRepo.store.headWalk = [oidN 1, oidN 2].map .ok ∧
    (([oidN 1, oidN 2].take ((none : Option Nat).getD 1000)).countP fun o =>
        exceptIsError (parseCommit c1wRepo.store o)) = 1 ∧
    ((load_commits c1wRepo none).1 = .ok () ∧
     (load_commits c1wRepo none).2.commits =
       parsedOf c1wRepo.store ([oidN 1, oidN 2].take ((none : Option Nat).getD 1000)) ∧
     (load_commits c1wRepo none).2.commits.length + 1 =
       ([oidN 1, oidN 2].take ((none : Option Nat).getD 1000)).length) :=
  ⟨rfl, rfl, by decide,
   c1_corrupt_skip_full_load c1wRepo none [oidN 1, oidN 2] rfl rfl rfl rfl rfl (by decide)⟩

def c1Store : Store :=
  { baseStore with
    refs := [("refs/heads/main", oidN 1)]
    objects := [(oidN 1, .ok (natCommit [oidN 2])), (oidN 2, .error ⟨.other, "corrupt"⟩)]
    walkFrom := fun o => if o = oidN 1 then [.ok (oidN 1), .ok (oidN 2)] else [] }

def c1Repo : GitRepository := { store := c1Store, commits := [], commit_cache := [] }

/-- C1 fails as stated: the branch-scoped load visits 2 commits of which
exactly 1 is unparseable, yet it returns an error instead of succeeding with
the 1 valid entry. -/
theorem c1_counterexample :
    (([oidN 1, oidN 2].countP fun o => exceptIsError (parseCommit c1Store o)) = 1) ∧
    exceptIsError (load_commits_for_branch c1Repo "main" none).1 = true := by
  exact ⟨by decide, by decide⟩

/-! ### C2 -/

theorem load_commits_result_cases (repo : GitRepository) (limit : Option Nat) :
    (load_commits repo limit).1 = .ok () ∨ (load_commits repo limit).2.commits = repo.commits := by
  unfold load_commits
  dsimp only
  repeat' split
  all_goals first | (left; rfl) | (right; rfl)

/-- C2 (amended): if `load_commits` fails, the ordered commit list is left
unchanged (the cache, however, keeps any entries inserted before a
mid-iteration failure); failures before iteration begins (revwalk creation,
push of the starting point, sort setting) leave the whole state unchanged;
`refresh_commits` clears the ordered list before reloading, so when the
reload fails the ordered list is left empty, not at its previous value. -/
theorem c2_failure_state (repo : GitRepository) (limit : Option Nat) (e : TwiggyError)
    (g : GitErr) :
    ((load_commits repo limit).1 = .error e →
      (load_commits repo limit).2.commits = repo.commits) ∧
    (repo.store.revwalkNew = .error g → (load_commits repo limit).2 = repo) ∧
    (repo.store.pushHeadResult = .error g → (load_commits repo limit).2 = repo) ∧
    (repo.store.setSortingResult = .error g → (load_commits repo limit).2 = repo) ∧
    ((refresh_commits repo limit).1 = .error e →
      (refresh_commits repo limit).2.commits = []) := by
  refine ⟨?_, ?_, ?_, ?_, ?_⟩
  · intro h
    rcases load_commits_result_cases repo limit with h1 | h1
    · rw [h] at h1; cases h1
    · exact h1
  · intro hG
    unfold load_commits
    rw [hG]
    cases hIE : repo.store.isEmptyResult with
    | error g' => rfl
    | ok b => cases b <;> rfl
  · intro hG
    unfold load_commits
    rw [hG]
    cases hIE : repo.store.isEmptyResult with
    | error g' => rfl
    | ok b =>
      cases b
      · cases hRW : repo.store.revwalkNew <;> rfl
      · rfl
  · intro hG
    unfold load_commits
    rw [hG]
    cases hIE : repo.store.isEmptyResult with
    | error g' => rfl
    | ok b =>
      cases b
      · cases hRW : repo.store.revwalkNew
        · rfl
        · cases hPH : repo.store.pushHeadResult <;> rfl
      · rfl
  · intro h
    unfold refresh_commits at h ⊢
    rcases load_commits_result_cases { repo with commits := [] } limit with h1 | h1
    · rw [h] at h1; cases h1
    · exact h1

def c2Store : Store :=
  { baseStore with revwalkNew := .error ⟨.other, "revwalk failure"⟩ }

def someCommit : Commit :=
  ⟨⟨oidN 5⟩, ⟨"Author", "author@example.com", 10⟩, ⟨"Author", "author@example.com", 10⟩,
    "message", "summary", [], "tree"⟩

def c2Repo : GitRepository := { store := c2Store, commits := [someCommit], commit_cache := [] }

/-- C2 fails as stated: `refresh_commits` on a repository whose previous
ordered list is `[someCommit]` fails (revwalk creation fails) and leaves the
ordered list empty — the previous list is not left intact. -/
theorem c2_counterexample :
    exceptIsError (refresh_commits c2Repo none).1 = true ∧
    c2Repo.commits = [someCommit] ∧
    (refresh_commits c2Repo none).2.commits = [] := by
  exact ⟨by decide, rfl, by decide⟩

theorem c2_witness :
    c2Repo.store.revwalkNew = .error ⟨.other, "revwalk failure"⟩ ∧
    (refresh_commits c2Repo none).1 =
      .error (.git "Failed to create revwalk" ⟨.other, "revwalk failure"⟩) ∧
    (load_commits c2Repo none).2 = c2Repo ∧
    (refresh_commits c2Repo none).2.commits = [] :=
  ⟨rfl, rfl,
   (c2_failure_state c2Repo none
      (.git "Failed to create revwalk" ⟨.other, "revwalk failure"⟩)
      ⟨.other, "revwalk failure"⟩).2.1 rfl,
   (c2_failure_state c2Repo none
      (.git "Failed to create revwalk" ⟨.other, "revwalk failure"⟩)
      ⟨.other, "revwalk failure"⟩).2.2.2.2 rfl⟩

/-! ### Characterization of the cache-consulting loops -/

theorem walkLoopCached_allHit (s : Store) (msg : String) (f : Oid → Commit)
    (oids : List Oid) :
    ∀ (idx maxN : Nat) (cache : Cache) (acc : List Commit),
      (∀ o ∈ oids, cacheGet cache ⟨o⟩ = some (f o)) →
      walkLoopCached s msg (oids.map .ok) idx maxN cache acc =
        (.ok (acc ++ (oids.take (maxN - idx)).map f), cache) := by
  induction oids with
  | nil =>
    intro idx maxN cache acc _
    simp [walkLoopCached]
  | cons o rest ih =>
    intro idx maxN cache acc h
    by_cases hle : maxN ≤ idx
    · have h0 : maxN - idx = 0 := Nat.sub_eq_zero_of_le hle
      rw [List.map_cons, h0]
      simp [walkLoopCached, hle]
    · have hstep : maxN - idx = (maxN - (idx + 1)) + 1 := by omega
      rw [List.map_cons, hstep]
      simp only [walkLoopCached, if_neg hle]
      rw [h o (List.mem_cons_self o rest)]
      dsimp only
      rw [ih (idx + 1) maxN cache (acc ++ [f o])
        (fun o' ho' => h o' (List.mem_cons_of_mem o ho'))]
      rw [List.take_succ_cons, List.map_cons]
      simp [List.append_assoc]

theorem lazyLoop_allHit (s : Store) (f : Oid → Commit) (oids : List Oid) :
    ∀ (idx stop : Nat) (cache : Cache) (acc : List Commit),
      (∀ o ∈ oids, cacheGet cache ⟨o⟩ = some (f o)) →
      lazyLoop s (oids.map .ok) idx 0 stop cache acc =
        (.ok (acc ++ (oids.take (stop - idx)).map f), cache) := by
  induction oids with
  | nil =>
    intro idx stop cache acc _
    simp [lazyLoop]
  | cons o rest ih =>
    intro idx stop cache acc h
    rw [List.map_cons]
    simp only [lazyLoop, Nat.not_lt_zero, if_false]
    by_cases hle : stop ≤ idx
    · have h0 : stop - idx = 0 := Nat.sub_eq_zero_of_le hle
      rw [h0]
      simp [hle]
    · have hstep : stop - idx = (stop - (idx + 1)) + 1 := by omega
      rw [hstep]
      simp only [if_neg hle]
      rw [h o (List.mem_cons_self o rest)]
      dsimp only
      rw [ih (idx + 1) stop cache (acc ++ [f o])
        (fun o' ho' => h o' (List.mem_cons_of_mem o ho'))]
      rw [List.take_succ_cons, List.map_cons]
      simp [List.append_assoc]

theorem walkLoopCached_ok_of_parseable (s : Store) (msg : String) (oids : List Oid) :
    ∀ (idx maxN : Nat) (cache : Cache) (acc : List Commit),
      (∀ o ∈ oids, exceptIsOk (parseCommit s o) = true) →
      exceptIsOk (walkLoopCached s msg (oids.map .ok) idx maxN cache acc).1 = true := by
  induction oids with
  | nil => intro idx maxN cache acc _; rfl
  | cons o rest ih =>
    intro idx maxN cache acc h
    by_cases hle : maxN ≤ idx
    · simp [walkLoopCached, hle, exceptIsOk]
    · simp only [List.map_cons, walkLoopCached, if_neg hle]
      cases hc : cacheGet cache ⟨o⟩ with
      | some c =>
        exact ih (idx + 1) maxN cache (acc ++ [c])
          (fun o' ho' => h o' (List.mem_cons_of_mem o ho'))
      | none =>
        cases hp : parseCommit s o with
        | error e =>
          have := h o (List.mem_cons_self o rest)
          rw [hp] at this
          simp [exceptIsOk] at this
        | ok c =>
          exact ih (idx + 1) maxN (cacheInsert cache c.id c) (acc ++ [c])
            (fun o' ho' => h o' (List.mem_cons_of_mem o ho'))

/-! ### C3 -/

/-- C3 (amended): the lazy, branch-scoped, and range loads consult the
commit cache first for each visited identity — on a hit they yield the
cached commit without re-parsing and leave the cache unchanged (even if the
store holds no object for that identity), and on a miss they parse the
native record and insert it into the cache before yielding it.  The
full/bounded load, however, does not consult the cache: its ordered result
is the re-parsed commits of the walk, whatever the cache contents, and each
parsed commit overwrites its cache entry. -/
theorem c3_cache_consultation
    (repo : GitRepository) (limit : Option Nat) (count : Nat)
    (oids walkB walkR : List Oid) (f : Oid → Commit) (cAlt : Cache)
    (nameB nameM : String) (tipB tipM oM : Oid) (cM : Commit)
    (fromS toS : String) (fromOid toOid : Oid)
    (hIE : repo.store.isEmptyResult = .ok false)
    (hRW : repo.store.revwalkNew = .ok ())
    (hPH : repo.store.pushHeadResult = .ok ())
    (hSS : repo.store.setSortingResult = .ok ())
    (hW : repo.store.headWalk = oids.map .ok)
    (hCommitsNil : repo.commits = [])
    (hHitHead : ∀ o ∈ oids, cacheGet repo.commit_cache ⟨o⟩ = some (f o))
    (hRefB : assocLookup repo.store.refs ("refs/heads/" ++ nameB) = some tipB)
    (hPushB : repo.store.pushResult tipB = .ok ())
    (hWalkB : repo.store.walkFrom tipB = walkB.map .ok)
    (hHitB : ∀ o ∈ walkB, cacheGet repo.commit_cache ⟨o⟩ = some (f o))
    (hRefM : assocLookup repo.store.refs ("refs/heads/" ++ nameM) = some tipM)
    (hPushM : repo.store.pushResult tipM = .ok ())
    (hWalkM : repo.store.walkFrom tipM = [.ok oM])
    (hMiss : cacheGet repo.commit_cache ⟨oM⟩ = none)
    (hParseM : parseCommit repo.store oM = .ok cM)
    (hLim : 1 ≤ limit.getD 1000)
    (hFrom : Oid.fromStr fromS = .ok fromOid)
    (hTo : Oid.fromStr toS = .ok toOid)
    (hPushR : repo.store.pushResult toOid = .ok ())
    (hHideR : repo.store.hideResult fromOid = .ok ())
    (hWalkR : repo.store.rangeWalk toOid fromOid = walkR.map .ok)
    (hHitR : ∀ o ∈ walkR, cacheGet repo.commit_cache ⟨o⟩ = some (f o)) :
    ((load_commits { repo with commit_cache := cAlt } limit).2.commits =
        parsedOf repo.store (oids.take (limit.getD 1000))) ∧
    ((load_commits_lazy repo 0 count).1 = .ok ((oids.take count).map f) ∧
     (load_commits_lazy repo 0 count).2.commit_cache = repo.commit_cache) ∧
    ((load_commits_for_branch repo nameB limit).1 =
        .ok ((walkB.take (limit.getD 1000)).map f) ∧
     (load_commits_for_branch repo nameB limit).2.commit_cache = repo.commit_cache) ∧
    ((load_commits_for_branch repo nameM limit).1 = .ok [cM] ∧
     (load_commits_for_branch repo nameM limit).2.commit_cache =
       cacheInsert repo.commit_cache cM.id cM) ∧
    ((load_commits_range repo fromS toS limit).1 =
        .ok ((walkR.take (limit.getD 1000)).map f) ∧
     (load_commits_range repo fromS toS limit).2.commit_cache = repo.commit_cache) := by
  have hlazy : load_commits_lazy repo 0 count =
      (.ok ([] ++ (oids.take ((0 + count) - 0)).map f),
        { repo with commit_cache := repo.commit_cache }) := by
    unfold load_commits_lazy
    have hlt : ¬(0 < repo.commits.length) := by rw [hCommitsNil]; simp
    rw [if_neg hlt, hRW]
    dsimp only
    rw [hPH]
    dsimp only
    rw [hSS]
    dsimp only
    rw [hW, lazyLoop_allHit repo.store f oids 0 (0 + count) repo.commit_cache [] hHitHead]
  have hbranchB : load_commits_for_branch repo nameB limit =
      (.ok ([] ++ (walkB.take ((limit.getD 1000) - 0)).map f),
        { repo with commit_cache := repo.commit_cache }) := by
    unfold load_commits_for_branch refnameToId
    rw [hRW]
    dsimp only
    rw [hRefB]
    dsimp only
    rw [hPushB]
    dsimp only
    rw [hSS]
    dsimp only
    rw [hWalkB, walkLoopCached_allHit repo.store "Failed to get commit OID for branch" f
      walkB 0 (limit.getD 1000) repo.commit_cache [] hHitB]
  have hbranchM : load_commits_for_branch repo nameM limit =
      (.ok [cM], { repo with commit_cache := cacheInsert repo.commit_cache cM.id cM }) := by
    unfold load_commits_for_branch refnameToId
    rw [hRW]
    dsimp only
    rw [hRefM]
    dsimp only
    rw [hPushM]
    dsimp only
    rw [hSS]
    dsimp only
    rw [hWalkM]
    have hloop : walkLoopCached repo.store "Failed to get commit OID for branch"
        [.ok oM] 0 (limit.getD 1000) repo.commit_cache [] =
        (.ok [cM], cacheInsert repo.commit_cache cM.id cM) := by
      simp only [walkLoopCached, if_neg (by omega : ¬(limit.getD 1000 ≤ 0))]
      rw [hMiss]
      dsimp only
      rw [hParseM]
      dsimp only
      simp [walkLoopCached]
    rw [hloop]
  have hrange : load_commits_range repo fromS toS limit =
      (.ok ([] ++ (walkR.take ((limit.getD 1000) - 0)).map f),
        { repo with commit_cache := repo.commit_cache }) := by
    unfold load_commits_range
    rw [hFrom]
    dsimp only
    rw [hTo]
    dsimp only
    rw [hRW]
    dsimp only
    rw [hPushR]
    dsimp only
    rw [hHideR]
    dsimp only
    rw [hSS]
    dsimp only
    rw [hWalkR, walkLoopCached_allHit repo.store "Failed to get commit OID for range" f
      walkR 0 (limit.getD 1000) repo.commit_cache [] hHitR]
  have hfull := load_commits_spec { repo with commit_cache := cAlt } limit oids
    hIE hRW hPH hSS hW
  refine ⟨?_, ⟨?_, ?_⟩, ⟨?_, ?_⟩, ⟨?_, ?_⟩, ⟨?_, ?_⟩⟩
  · rw [hfull]
  · rw [hlazy]; simp
  · rw [hlazy]
  · rw [hbranchB]; simp
  · rw [hbranchB]
  · rw [hbranchM]
  · rw [hbranchM]
  · rw [hrange]; simp
  · rw [hrange]

def sigA : Signature := ⟨"Author", "author@example.com", 10⟩

def freshNat : NativeCommit :=
  { natCommit [] with message := some "fresh", summary := some "fresh" }

def cachedCommit : Commit := ⟨⟨oidN 4⟩, sigA, sigA, "cached", "cached", [], "tree"⟩

def freshCommit : Commit := ⟨⟨oidN 4⟩, sigA, sigA, "fresh", "fresh", [], "tree"⟩

def c3Store : Store :=
  { baseStore with headWalk := [.ok (oidN 4)], objects := [(oidN 4, .ok freshNat)] }

def c3Repo : GitRepository :=
  { store := c3Store, commits := [], commit_cache := [(⟨oidN 4⟩, cachedCommit)] }

/-- C3 fails as stated: the full/bounded load visits an identity that is
present in the cache, yet it yields the freshly re-parsed commit (message
"fresh"), not the cached one (message "cached"), and overwrites the cache
entry. -/
theorem c3_counterexample :
    cacheGet c3Repo.commit_cache ⟨oidN 4⟩ = some cachedCommit ∧
    (load_commits c3Repo none).1 = .ok () ∧
    (load_commits c3Repo none).2.commits = [freshCommit] ∧
    freshCommit ≠ cachedCommit ∧
    cacheGet (load_commits c3Repo none).2.commit_cache ⟨oidN 4⟩ = some freshCommit := by
  exact ⟨by decide, by decide, by decide, by decide, by decide⟩

def c3wF : Oid → Commit := fun o => ⟨⟨o⟩, sigA, sigA, "cached", "cached", [], "tree"⟩

def c3wMissCommit : Commit := ⟨⟨oidN 9⟩, sigA, sigA, "message", "summary", [], "tree"⟩

def c3wStore : Store :=
  { baseStore with
    headWalk := [.ok (oidN 6)]
    refs := [("refs/heads/b", oidN 1), ("refs/heads/m", oidN 2)]
    objects := [(oidN 9, .ok (natCommit []))]
    walkFrom := fun o =>
      if o = oidN 1 then [.ok (oidN 7)] else if o = oidN 2 then [.ok (oidN 9)] else []
    rangeWalk := fun a _ => if a = oidN 3 then [.ok (oidN 8)] else [] }

def c3wCache : Cache :=
  [(⟨oidN 6⟩, c3wF (oidN 6)), (⟨oidN 7⟩, c3wF (oidN 7)), (⟨oidN 8⟩, c3wF (oidN 8))]

def c3wRepo : GitRepository :=
  { store := c3wStore, commits := [], commit_cache := c3wCache }

theorem c3_witness :
    cacheGet c3wRepo.commit_cache ⟨oidN 9⟩ = none ∧
    parseCommit c3wRepo.store (oidN 9) = .ok c3wMissCommit ∧
    ((load_commits_for_branch c3wRepo "m" none).1 = .ok [c3wMissCommit] ∧
     (load_commits_for_branch c3wRepo "m" none).2.commit_cache =
       cacheInsert c3wRepo.commit_cache c3wMissCommit.id c3wMissCommit) :=
  ⟨by decide, by decide,
   (c3_cache_consultation c3wRepo none 1 [oidN 6] [oidN 7] [oidN 8] c3wF []
      "b" "m" (oidN 1) (oidN 2) (oidN 9) c3wMissCommit
      (oidToStr (oidN 4)) (oidToStr (oidN 3)) (oidN 4) (oidN 3)
      (by decide) (by decide) (by decide) (by decide) (by decide) (by decide)
      (by decide) (by decide) (by decide) (by decide) (by decide)
      (by decide) (by decide) (by decide) (by decide) (by decide) (by decide)
      (by decide) (by decide) (by decide) (by decide) (by decide)
      (by decide)).2.2.2.1⟩

/-! ### C8 -/

/-- C8: `load_commits_for_branch` fails with the branch-not-found error
(leaving the state unchanged) when the name does not resolve to a local
branch reference, and succeeds, traversing from that branch's tip, when it
does (provided the visited commits parse). -/
theorem c8_branch_not_found (repo : GitRepository) (nameA nameB : String)
    (limit : Option Nat) (tip : Oid) (walkOids : List Oid)
    (hRW : repo.store.revwalkNew = .ok ())
    (hSS : repo.store.setSortingResult = .ok ())
    (hA : assocLookup repo.store.refs ("refs/heads/" ++ nameA) = none)
    (hB : assocLookup repo.store.refs ("refs/heads/" ++ nameB) = some tip)
    (hPush : repo.store.pushResult tip = .ok ())
    (hWB : repo.store.walkFrom tip = walkOids.map .ok)
    (hParse : ∀ o ∈ walkOids, exceptIsOk (parseCommit repo.store o) = true) :
    ((load_commits_for_branch repo nameA limit).1 =
      .error (.git ("Failed to find branch: " ++ nameA) ⟨.notFound, "reference not found"⟩) ∧
     (load_commits_for_branch repo nameA limit).2 = repo) ∧
    exceptIsOk (load_commits_for_branch repo nameB limit).1 = true := by
  refine ⟨⟨?_, ?_⟩, ?_⟩
  · unfold load_commits_for_branch refnameToId
    rw [hRW]
    dsimp only
    rw [hA]
  · unfold load_commits_for_branch refnameToId
    rw [hRW]
    dsimp only
    rw [hA]
  · unfold load_commits_for_branch refnameToId
    rw [hRW]
    dsimp only
    rw [hB]
    dsimp only
    rw [hPush]
    dsimp only
    rw [hSS]
    dsimp only
    rw [hWB]
    exact walkLoopCached_ok_of_parseable repo.store "Failed to get commit OID for branch"
      walkOids 0 (limit.getD 1000) repo.commit_cache [] hParse

def c8Store : Store :=
  { baseStore with
    refs := [("refs/heads/dev", oidN 1)]
    objects := [(oidN 2, .ok (natCommit []))]
    walkFrom := fun o => if o = oidN 1 then [.ok (oidN 2)] else [] }

def c8Repo : GitRepository := { store := c8Store, commits := [], commit_cache := [] }

theorem c8_witness :
    assocLookup c8Repo.store.refs ("refs/heads/" ++ "missing") = none ∧
    assocLookup c8Repo.store.refs ("refs/heads/" ++ "dev") = some (oidN 1) ∧
    (((load_commits_for_branch c8Repo "missing" none).1 =
        .error (.git ("Failed to find branch: " ++ "missing")
          ⟨.notFound, "reference not found"⟩) ∧
      (load_commits_for_branch c8Repo "missing" none).2 = c8Repo) ∧
     exceptIsOk (load_commits_for_branch c8Repo "dev" none).1 = true) :=
  ⟨by decide, by decide,
   c8_branch_not_found c8Repo "missing" "dev" none (oidN 1) [oidN 2]
     (by decide) (by decide) (by decide) (by decide) (by decide) (by decide) (by decide)⟩

/-! ### C7 -/

/-- C7: for every well-formed commit identity, parsing its canonical string
form yields back the same identity, and parsing a malformed hash string
fails (and `find_commit_by_hash` surfaces that failure as the
invalid-hash error). -/
theorem c7_identity_roundtrip (cid : CommitId) (h : cid.oid.nibbles.length = 40)
    (repo : GitRepository) (s : String) (hs : validHashStr s = false) :
    Oid.fromStr (CommitId.asStr cid) = .ok cid.oid ∧
    exceptIsError (Oid.fromStr s) = true ∧
    exceptIsError (find_commit_by_hash repo s) = true := by
  obtain ⟨g, hg⟩ := oid_fromStr_malformed s hs
  refine ⟨oid_fromStr_roundtrip cid.oid h, ?_, ?_⟩
  · rw [hg]; rfl
  · unfold find_commit_by_hash; rw [hg]; rfl

theorem c7_witness :
    (CommitId.mk (oidN 3)).oid.nibbles.length = 40 ∧
    validHashStr "zz" = false ∧
    (Oid.fromStr (CommitId.asStr ⟨oidN 3⟩) = .ok (oidN 3) ∧
     exceptIsError (Oid.fromStr "zz") = true ∧
     exceptIsError (find_commit_by_hash baseRepo "zz") = true) :=
  ⟨by decide, by decide, c7_identity_roundtrip ⟨oidN 3⟩ (by decide) baseRepo "zz" (by decide)⟩

/-! ### Reachability and identity lemmas for the range load -/

theorem reachFuel_refl (s : Store) (n : Nat) (a : Oid) : reachFuel s n a a = true := by
  cases n <;> simp [reachFuel]

theorem reaches_refl (s : Store) (a : Oid) : reaches s a a = true :=
  reachFuel_refl s s.objects.length a

theorem parseCommit_id (s : Store) (o : Oid) (c : Commit)
    (h : parseCommit s o = .ok c) : c.id = ⟨o⟩ := by
  unfold parseCommit at h
  cases hf : findCommit s o with
  | error e => rw [hf] at h; cases h
  | ok rec =>
    rw [hf] at h
    dsimp only at h
    injection h with h'
    rw [← h']

/-- The output list of results (identities only) of a load, `none` when the
load failed. -/
def idsOf : Except TwiggyError (List Commit) → Option (List CommitId)
  | .ok l => some (l.map Commit.id)
  | .error _ => none

/-- A cache is coherent when every entry is stored under its own identity —
an invariant every code path that inserts maintains. -/
def CacheCoherent (m : Cache) : Prop :=
  ∀ k c, cacheGet m k = some c → c.id = k

theorem cacheCoherent_nil : CacheCoherent [] := by
  intro k c h
  simp [cacheGet] at h

theorem coherent_insert (m : Cache) (k : CommitId) (c : Commit)
    (hc : CacheCoherent m) (hid : c.id = k) : CacheCoherent (cacheInsert m k c) := by
  intro k' c' h
  rw [cacheGet_insert] at h
  by_cases hk : k = k'
  · rw [if_pos hk] at h
    injection h with h'
    rw [← h', hid, hk]
  · rw [if_neg hk] at h
    exact hc k' c' h

theorem assocLookup_mem {κ α : Type} [DecidableEq κ] (l : List (κ × α)) (k : κ) (v : α)
    (h : assocLookup l k = some v) : (k, v) ∈ l := by
  induction l with
  | nil => cases h
  | cons p rest ih =>
    obtain ⟨k', v'⟩ := p
    simp only [assocLookup] at h
    by_cases hk : k' = k
    · rw [if_pos hk] at h
      injection h with h'
      subst hk
      subst h'
      exact List.mem_cons_self _ _
    · rw [if_neg hk] at h
      exact List.mem_cons_of_mem _ (ih h)

theorem parentsOf_subset_flatMap (s : Store) (a p : Oid) (hp : p ∈ parentsOf s a) :
    p ∈ s.objects.flatMap (fun x => parentsOf s x.1) := by
  unfold parentsOf at hp
  cases hl : assocLookup s.objects a with
  | none => rw [hl] at hp; cases hp
  | some r =>
    rw [hl] at hp
    cases r with
    | error e => cases hp
    | ok rec =>
      have hmem : (a, Except.ok rec) ∈ s.objects := assocLookup_mem _ _ _ hl
      refine List.mem_flatMap.mpr ⟨(a, .ok rec), hmem, ?_⟩
      show p ∈ parentsOf s a
      unfold parentsOf
      rw [hl]
      exact hp

/-- Every identity reachable from `a` is `a` itself or a parent recorded in
some store object. -/
theorem reachFuel_support (s : Store) :
    ∀ (n : Nat) (a b : Oid), reachFuel s n a b = true →
      b = a ∨ b ∈ s.objects.flatMap (fun x => parentsOf s x.1) := by
  intro n
  induction n with
  | zero =>
    intro a b h
    simp only [reachFuel, decide_eq_true_eq] at h
    exact Or.inl h.symm
  | succ n ih =>
    intro a b h
    simp only [reachFuel, Bool.or_eq_true, decide_eq_true_eq] at h
    rcases h with h | h
    · exact Or.inl h.symm
    · rcases List.any_eq_true.mp h with ⟨p, hp, hr⟩
      rcases ih p b hr with h1 | h1
      · subst h1
        exact Or.inr (parentsOf_subset_flatMap s a b hp)
      · exact Or.inr h1

/-- The candidate identities a range walk rooted at `toOid` can visit. -/
def rangeSupport (s : Store) (toOid : Oid) : List Oid :=
  toOid :: s.objects.flatMap (fun x => parentsOf s x.1)

theorem reaches_support (s : Store) (toOid o : Oid) (h : reaches s toOid o = true) :
    o ∈ rangeSupport s toOid := by
  rcases reachFuel_support s s.objects.length toOid o h with h1 | h1
  · rw [h1]; exact List.mem_cons_self _ _
  · exact List.mem_cons_of_mem _ h1

theorem walkLoopCached_ids (s : Store) (msg : String) (oids : List Oid) :
    ∀ (idx maxN : Nat) (cache : Cache) (acc : List Commit),
      CacheCoherent cache →
      (∀ o ∈ oids, exceptIsOk (parseCommit s o) = true) →
      idsOf (walkLoopCached s msg (oids.map .ok) idx maxN cache acc).1 =
        some (acc.map Commit.id ++ (oids.take (maxN - idx)).map CommitId.mk) := by
  induction oids with
  | nil =>
    intro idx maxN cache acc _ _
    simp [walkLoopCached, idsOf]
  | cons o rest ih =>
    intro idx maxN cache acc hc hp
    by_cases hle : maxN ≤ idx
    · have h0 : maxN - idx = 0 := Nat.sub_eq_zero_of_le hle
      rw [List.map_cons, h0]
      simp [walkLoopCached, hle, idsOf]
    · have hstep : maxN - idx = (maxN - (idx + 1)) + 1 := by omega
      rw [List.map_cons, hstep]
      simp only [walkLoopCached, if_neg hle]
      cases hcg : cacheGet cache ⟨o⟩ with
      | some c =>
        have hcid : c.id = ⟨o⟩ := hc ⟨o⟩ c hcg
        rw [ih (idx + 1) maxN cache (acc ++ [c]) hc
          (fun o' h' => hp o' (List.mem_cons_of_mem o h'))]
        rw [List.take_succ_cons, List.map_cons, List.map_append]
        simp [hcid, List.append_assoc]
      | none =>
        cases hpp : parseCommit s o with
        | error e =>
          have := hp o (List.mem_cons_self o rest)
          rw [hpp] at this
          simp [exceptIsOk] at this
        | ok c =>
          have hcid : c.id = ⟨o⟩ := parseCommit_id s o c hpp
          rw [ih (idx + 1) maxN (cacheInsert cache c.id c) (acc ++ [c])
            (coherent_insert cache c.id c hc rfl)
            (fun o' h' => hp o' (List.mem_cons_of_mem o h'))]
          rw [List.take_succ_cons, List.map_cons, List.map_append]
          simp [hcid, List.append_assoc]

/-! ### C5 -/

/-- C5 (amended): when both endpoints resolve, the native walk enumerates
the commits reachable from `to` but not from `from` in descendants-first
order and they all parse, `load_commits_range` returns those commits
truncated to the first `limit` (default 1000); hence exactly that set when
its size is at most the limit.  It never includes `from`; it yields `to` as
the first entry whenever `to` is not reachable from `from` and the limit is
at least 1 (with a limit of 0 it returns nothing); and it fails with the
invalid-hash error when an endpoint does not parse. -/
theorem c5_range_load (repo : GitRepository) (fromS toS badS : String)
    (limit : Option Nat) (fromOid toOid : Oid) (walkOids : List Oid)
    (hFrom : Oid.fromStr fromS = .ok fromOid)
    (hTo : Oid.fromStr toS = .ok toOid)
    (hRW : repo.store.revwalkNew = .ok ())
    (hPushR : repo.store.pushResult toOid = .ok ())
    (hHideR : repo.store.hideResult fromOid = .ok ())
    (hSS : repo.store.setSortingResult = .ok ())
    (hWalk : repo.store.rangeWalk toOid fromOid = walkOids.map .ok)
    (hSet1 : ∀ o ∈ walkOids,
      reaches repo.store toOid o = true ∧ reaches repo.store fromOid o = false)
    (hSet2 : ∀ o ∈ rangeSupport repo.store toOid,
      reaches repo.store toOid o = true → reaches repo.store fromOid o = false →
        o ∈ walkOids)
    (hOrd : walkOids.Pairwise (fun a b => reaches repo.store b a = false))
    (hParse : ∀ o ∈ walkOids, exceptIsOk (parseCommit repo.store o) = true)
    (hCoh : CacheCoherent repo.commit_cache)
    (hProper : reaches repo.store fromOid toOid = false)
    (hBad : validHashStr badS = false) :
    idsOf (load_commits_range repo fromS toS limit).1 =
      some ((walkOids.take (limit.getD 1000)).map CommitId.mk) ∧
    CommitId.mk fromOid ∉ (walkOids.take (limit.getD 1000)).map CommitId.mk ∧
    (walkOids.length ≤ limit.getD 1000 →
      ∀ o : Oid, CommitId.mk o ∈ (walkOids.take (limit.getD 1000)).map CommitId.mk ↔
        (reaches repo.store toOid o = true ∧ reaches repo.store fromOid o = false)) ∧
    (1 ≤ limit.getD 1000 →
      ((walkOids.take (limit.getD 1000)).map CommitId.mk).head? =
        some (CommitId.mk toOid)) ∧
    exceptIsError (load_commits_range repo badS toS limit).1 = true := by
  have h1 : (load_commits_range repo fromS toS limit).1 =
      (walkLoopCached repo.store "Failed to get commit OID for range"
        (walkOids.map .ok) 0 (limit.getD 1000) repo.commit_cache []).1 := by
    unfold load_commits_range
    rw [hFrom]
    dsimp only
    rw [hTo]
    dsimp only
    rw [hRW]
    dsimp only
    rw [hPushR]
    dsimp only
    rw [hHideR]
    dsimp only
    rw [hSS]
    dsimp only
    rw [hWalk]
  refine ⟨?_, ?_, ?_, ?_, ?_⟩
  · rw [h1, walkLoopCached_ids repo.store _ walkOids 0 (limit.getD 1000)
      repo.commit_cache [] hCoh hParse]
    simp
  · intro hm
    rcases List.mem_map.mp hm with ⟨o, ho, heq⟩
    have hoo : o = fromOid := by
      injection heq
    subst hoo
    have hw : o ∈ walkOids := List.take_subset _ _ ho
    have hfo := (hSet1 o hw).2
    rw [reaches_refl] at hfo
    cases hfo
  · intro hLen o
    constructor
    · intro hm
      rcases List.mem_map.mp hm with ⟨o', ho', heq⟩
      have ho2 : o' = o := by injection heq
      subst ho2
      exact hSet1 o' (List.take_subset _ _ ho')
    · rintro ⟨hto, hfrom⟩
      have hsup : o ∈ rangeSupport repo.store toOid := reaches_support repo.store toOid o hto
      have hw : o ∈ walkOids := hSet2 o hsup hto hfrom
      rw [List.take_of_length_le hLen]
      exact List.mem_map.mpr ⟨o, hw, rfl⟩
  · intro hLim
    have htomem : toOid ∈ walkOids := by
      refine hSet2 toOid (List.mem_cons_self _ _) (reaches_refl _ _) hProper
    cases hwo : walkOids with
    | nil => rw [hwo] at htomem; cases htomem
    | cons w0 ws =>
      obtain ⟨k, hk⟩ : ∃ k, limit.getD 1000 = k + 1 := ⟨limit.getD 1000 - 1, by omega⟩
      rw [hk, List.take_succ_cons, List.map_cons]
      have hw0 : w0 = toOid := by
        rw [hwo] at htomem
        rcases List.mem_cons.mp htomem with h | h
        · exact h.symm
        · exfalso
          rw [hwo] at hOrd
          have hpair := (List.pairwise_cons.mp hOrd).1 toOid h
          rw [hwo] at hSet1
          have := (hSet1 w0 (List.mem_cons_self _ _)).1
          rw [hpair] at this
          cases this
      rw [hw0]
      rfl
  · obtain ⟨g, hg⟩ := oid_fromStr_malformed badS hBad
    unfold load_commits_range
    rw [hg]
    rfl

def c5Store : Store :=
  { baseStore with
    objects := [(oidN 10, .ok (natCommit [])), (oidN 11, .ok (natCommit [oidN 10])),
      (oidN 12, .ok (natCommit [oidN 11]))]
    rangeWalk := fun t f =>
      if t = oidN 12 then (if f = oidN 10 then [.ok (oidN 12), .ok (oidN 11)] else [])
      else [] }

def c5Repo : GitRepository := { store := c5Store, commits := [], commit_cache := [] }

/-- C5 fails as stated: in the linear history `A ← B ← C` (`A` = `oidN 10`,
`B` = `oidN 11`, `C` = `oidN 12`), `B` is reachable from `C` and not from
`A`, yet `load_commits_range A C` with limit 1 returns only `[C]` — not
exactly the commits reachable from `to` but not from `from`. -/
theorem c5_counterexample :
    reaches c5Store (oidN 12) (oidN 11) = true ∧
    reaches c5Store (oidN 10) (oidN 11) = false ∧
    idsOf (load_commits_range c5Repo (oidToStr (oidN 10)) (oidToStr (oidN 12)) (some 1)).1 =
      some [CommitId.mk (oidN 12)] ∧
    CommitId.mk (oidN 11) ∉ [CommitId.mk (oidN 12)] := by
  exact ⟨by decide, by decide, by decide, by decide⟩

theorem c5_witness :
    (∀ o ∈ [oidN 12, oidN 11],
      reaches c5Repo.store (oidN 12) o = true ∧ reaches c5Repo.store (oidN 10) o = false) ∧
    reaches c5Repo.store (oidN 10) (oidN 12) = false ∧
    idsOf (load_commits_range c5Repo (oidToStr (oidN 10)) (oidToStr (oidN 12)) none).1 =
      some (([oidN 12, oidN 11].take ((none : Option Nat).getD 1000)).map CommitId.mk) :=
  ⟨by decide, by decide,
   (c5_range_load c5Repo (oidToStr (oidN 10)) (oidToStr (oidN 12)) "zz" none
      (oidN 10) (oidN 12) [oidN 12, oidN 11]
      (by decide) (by decide) (by decide) (by decide) (by decide) (by decide) (by decide)
      (by decide) (by decide) (by decide) (by decide)
      cacheCoherent_nil (by decide) (by decide)).1⟩

end Twiggy
